import Mathlib

/-!
# Verification of the Smart-pointers repository

Shallow embedding of the reference-counting smart-pointer library:

* `src/shared-from-this/shared.h` — `ControlBlockBase` (strong/weak counters),
  `SharedPtr` (copy/move/assign/Reset/Swap/destroy, `Decrement`),
  `EnableSharedFromThis` (self-reference mixin), `operator==`, `MakeShared`;
* `src/shared-from-this/weak.h` — `WeakPtr` (copy/move/assign/Reset/Swap/destroy,
  `Lock`, `Expired`, `UseCount`, `Decrement`);
* `src/unique/unique.h` — `UniquePtr` (`Release`, `Reset`, move, destructor).

The shared/weak subsystem is modelled as a small-step machine over the state of
ONE control block together with the dynamic set of handles (SharedPtr / WeakPtr
instances) bound to it.  Each operation of the machine is the body of the
corresponding C++ member function, translated statement by statement; ghost
counters `objDestroys` / `blockFrees` record each call of `DeleteObject()` and
each `delete block_` so that "destroyed exactly once" is a statement about the
final state.
-/

namespace SmartPtr

/-- The state of one `SharedPtr`/`WeakPtr` handle relative to the single
control block being traced.
* `sBound` : a `SharedPtr` whose `block_` points at the traced block;
* `sNull`  : a `SharedPtr` with `ptr_ = block_ = nullptr` (default-constructed,
  moved-from, or after `Reset()`);
* `wBound` / `wNull` : the same two states for a `WeakPtr`;
* `dead`   : the handle's destructor has run; using it again is incorrect use. -/
inductive HState where
  | sBound
  | sNull
  | wBound
  | wNull
  | dead
deriving DecidableEq

/-- State of the traced control block and its handles.
* `strong`, `weak` : the `int strong_counter_` / `int weak_counter_` of
  `ControlBlockBase` (modelled as unbounded `Int`; within-range under correct use);
* `objAlive` : the managed object has not been destroyed yet (ghost);
* `wired` : the managed object embeds `EnableSharedFromThis` and its member
  `weak_this_` is currently bound to the traced block (its single weak
  registration is included in `weak`);
* `mixin` : the managed type embeds the mixin (fixed for the whole trace);
* `blockAlive` : the block has not been `delete`d yet (ghost);
* `handles` : the handles created so far, in creation order;
* `objDestroys` : number of `DeleteObject()` calls performed so far (ghost);
* `blockFrees` : number of `delete block_` operations performed so far (ghost). -/
structure Config where
  strong : Int
  weak : Int
  objAlive : Bool
  wired : Bool
  mixin : Bool
  blockAlive : Bool
  handles : List HState
  objDestroys : Nat
  blockFrees : Nat
deriving DecidableEq

/-- `block_->DeleteObject()`: runs the managed object's destructor.  When the
object embeds the wired mixin, `~EnableSharedFromThis` executes
`weak_this_.GetRealBlock()->DecreaseWeakCounter()` and then nulls
`weak_this_`'s block and pointer fields (shared.h lines 106-110), so the member
`WeakPtr`'s own destructor subsequently performs no further decrement: the net
effect of object destruction on the block is a single weak decrement. -/
def deleteObject (c : Config) : Config :=
  { c with objAlive := false
           objDestroys := c.objDestroys + 1
           weak := if c.wired then c.weak - 1 else c.weak
           wired := false }

/-- `delete block_`: frees the control block (ghost-counted). -/
def freeBlock (c : Config) : Config :=
  { c with blockAlive := false, blockFrees := c.blockFrees + 1 }

/-- Body of `SharedPtr::Decrement` (shared.h lines 260-273) in the case
`block_ != nullptr`, acting on the traced block:
`DecreaseStrongCounter()`, then the two-branch check on the updated counters;
in the first branch the weak counter is re-read after `DeleteObject()`
(the mixin's destructor may have just decremented it). -/
def sharedDecrement (c : Config) : Config :=
  let c1 := { c with strong := c.strong - 1 }
  if c1.strong = 0 ∧ c1.weak ≠ 0 then
    let c2 := deleteObject c1
    if c2.weak = 0 then freeBlock c2 else c2
  else if c1.strong = 0 ∧ c1.weak = 0 then
    freeBlock (deleteObject c1)
  else c1

/-- Body of `WeakPtr::Decrement` (weak.h lines 126-133) in the case
`block_ != nullptr`: `DecreaseWeakCounter()`, then free the block if both
counters are now zero. -/
def weakDecrement (c : Config) : Config :=
  let c1 := { c with weak := c.weak - 1 }
  if c1.strong = 0 ∧ c1.weak = 0 then freeBlock c1 else c1

/-- Dispatch of `Decrement()` for a handle: the bodies above when `block_` is
non-null, a no-op when the handle's `block_` is null. -/
def hDecrement (c : Config) : HState → Config
  | .sBound => sharedDecrement c
  | .wBound => weakDecrement c
  | _ => c

/-- The `if (block_) block_->Increase...Counter()` step performed by the copy
constructors / copy assignments when adopting the fields of handle `h`. -/
def bindInc (c : Config) : HState → Config
  | .sBound => { c with strong := c.strong + 1 }
  | .wBound => { c with weak := c.weak + 1 }
  | _ => c

/-- The state a handle is left in after being moved from or `Reset()`:
`ptr_ = block_ = nullptr`, keeping its class. -/
def nullOf : HState → HState
  | .sBound => .sNull
  | .sNull => .sNull
  | .wBound => .wNull
  | .wNull => .wNull
  | .dead => .dead

/-- Whether a handle is a `SharedPtr` (as opposed to a `WeakPtr`). -/
def isStrongKind : HState → Bool
  | .sBound => true
  | .sNull => true
  | _ => false

/-- One operation on the handles sharing the traced control block.  Indices
refer to positions in `Config.handles`; constructors append the new handle. -/
inductive Op where
  | copyCon (i : Nat)      -- copy constructor from handle `i` (SharedPtr or WeakPtr)
  | moveCon (i : Nat)      -- move constructor from handle `i`
  | assignCopy (i j : Nat) -- `handle[i] = handle[j]` (copy assignment)
  | assignMove (i j : Nat) -- `handle[i] = std::move(handle[j])`
  | reset (i : Nat)        -- `handle[i].Reset()`
  | swapOp (i j : Nat)     -- `handle[i].Swap(handle[j])`
  | destroy (i : Nat)      -- `handle[i].~()` (destructor)
  | demote (i : Nat)       -- `WeakPtr(handle[i])` where `i` is a SharedPtr
  | lock (i : Nat)         -- `handle[i].Lock()` where `i` is a WeakPtr
  | promote (i : Nat)      -- `SharedPtr(handle[i])` where `i` is a WeakPtr
deriving DecidableEq

/-- One step of the machine.  `none` marks incorrect use (an out-of-range or
destroyed handle, an ill-typed operation, or undefined behaviour such as the
promoting constructor dereferencing a null `block_`).  Each `some` case is the
corresponding C++ member function body. -/
def step (c : Config) : Op → Option Config
  | .copyCon i =>
    match c.handles[i]? with
    | none => none
    | some .dead => none
    | some h => some { bindInc c h with handles := c.handles ++ [h] }
  | .moveCon i =>
    match c.handles[i]? with
    | none => none
    | some .dead => none
    | some h => some { c with handles := c.handles.set i (nullOf h) ++ [h] }
  | .assignCopy i j =>
    match c.handles[i]?, c.handles[j]? with
    | some hi, some hj =>
      if hi = .dead ∨ hj = .dead then none
      else if isStrongKind hi ≠ isStrongKind hj then none
      else if i = j then some c   -- `if (this != &other)` guard: self-assignment is a no-op
      else
        -- `Decrement(); ptr_ = other.ptr_; block_ = other.block_; if (block_) Increase...`
        some { bindInc (hDecrement c hi) hj with handles := c.handles.set i hj }
    | _, _ => none
  | .assignMove i j =>
    match c.handles[i]?, c.handles[j]? with
    | some hi, some hj =>
      if hi = .dead ∨ hj = .dead then none
      else if isStrongKind hi ≠ isStrongKind hj then none
      else if i = j then some c   -- `if (this == &other) return *this;`
      else
        -- `Decrement();` then steal fields, then null out the source
        some { hDecrement c hi with handles := (c.handles.set i hj).set j (nullOf hj) }
    | _, _ => none
  | .reset i =>
    match c.handles[i]? with
    | none => none
    | some .dead => none
    | some h => some { hDecrement c h with handles := c.handles.set i (nullOf h) }
  | .swapOp i j =>
    match c.handles[i]?, c.handles[j]? with
    | some hi, some hj =>
      if hi = .dead ∨ hj = .dead then none
      else if isStrongKind hi ≠ isStrongKind hj then none
      else some { c with handles := (c.handles.set i hj).set j hi }
    | _, _ => none
  | .destroy i =>
    match c.handles[i]? with
    | none => none
    | some .dead => none
    | some h => some { hDecrement c h with handles := c.handles.set i .dead }
  | .demote i =>
    match c.handles[i]? with
    | some .sBound => some { c with weak := c.weak + 1, handles := c.handles ++ [.wBound] }
    | some .sNull => some { c with handles := c.handles ++ [.wNull] }
    | _ => none
  | .lock i =>
    match c.handles[i]? with
    | some .wBound =>
      if c.strong = 0 then some { c with handles := c.handles ++ [.sNull] }
      else some { c with strong := c.strong + 1, handles := c.handles ++ [.sBound] }
    | some .wNull => some { c with handles := c.handles ++ [.sNull] }
    | _ => none
  | .promote i =>
    match c.handles[i]? with
    | some .wBound =>
      if c.strong = 0 then some c   -- throws BadWeakPtr: counters untouched, no handle built
      else some { c with strong := c.strong + 1, handles := c.handles ++ [.sBound] }
    | some .wNull => none           -- `block_->GetStrongCounter()` on null block_: UB
    | _ => none

/-- Run a list of operations from a configuration. -/
def run (c : Config) : List Op → Option Config
  | [] => some c
  | op :: ops =>
    match step c op with
    | some c' => run c' ops
    | none => none

/-- Initial configuration: the first `SharedPtr` constructed over the object
(raw-pointer constructor or `MakeShared`).  The block is created with
`strong_counter_ = 1, weak_counter_ = 0`.  When the managed type embeds
`EnableSharedFromThis`, the constructor then calls `SetWeakThis(*this)`: the
by-value parameter copies the handle (strong 1→2), the implicit
`WeakPtr(const SharedPtr&)` temporary registers weakly (weak 0→1), the copy
assignment into `weak_this_` registers again (weak 1→2), destroying the
temporary unregisters (weak 2→1) and destroying the parameter drops the strong
copy (strong 2→1); net result `strong = 1, weak = 1` with the mixin wired. -/
def initConfig (mixin : Bool) : Config :=
  { strong := 1
    weak := if mixin then 1 else 0
    objAlive := true
    wired := mixin
    mixin := mixin
    blockAlive := true
    handles := [.sBound]
    objDestroys := 0
    blockFrees := 0 }

/-- Number of occurrences of handle state `v`, as an integer (to compare
directly with the block's `int` counters). -/
def countH (v : HState) : List HState → Int
  | [] => 0
  | h :: t => (if h = v then 1 else 0) + countH v t

/-- Number of bound `SharedPtr` handles. -/
def nStrong (hs : List HState) : Int := countH .sBound hs

/-- Number of bound `WeakPtr` handles. -/
def nWeak (hs : List HState) : Int := countH .wBound hs

/-- Well-formedness of a configuration (correct use): the counters equal the
number of registered holders, the ghost flags reflect the counters, and each
destruction/free event has happened exactly as often as the flags say. -/
def WF (c : Config) : Prop :=
  c.strong = nStrong c.handles ∧
  c.weak = nWeak c.handles + (if c.wired then 1 else 0) ∧
  (c.objAlive = true ↔ 0 < c.strong) ∧
  (c.wired = true ↔ (c.mixin = true ∧ c.objAlive = true)) ∧
  (c.blockAlive = true ↔ 0 < c.strong + c.weak) ∧
  c.objDestroys = (if c.objAlive then 0 else 1) ∧
  c.blockFrees = (if c.blockAlive then 0 else 1)

theorem countH_nonneg (v : HState) (hs : List HState) : 0 ≤ countH v hs := by
  induction hs with
  | nil => simp [countH]
  | cons h t ih =>
    simp only [countH]
    split <;> omega

theorem countH_append (v : HState) (hs : List HState) (x : HState) :
    countH v (hs ++ [x]) = countH v hs + (if x = v then 1 else 0) := by
  induction hs with
  | nil => simp [countH]
  | cons h t ih => simp only [List.cons_append, countH, List.append_eq, ih]; ring

theorem countH_set (v : HState) (hs : List HState) (i : Nat) (u x : HState)
    (h : hs[i]? = some u) :
    countH v (hs.set i x) =
      countH v hs - (if u = v then 1 else 0) + (if x = v then 1 else 0) := by
  induction hs generalizing i with
  | nil => simp at h
  | cons hd t ih =>
    cases i with
    | zero =>
      simp only [List.getElem?_cons_zero, Option.some.injEq] at h
      subst h
      simp only [List.set_cons_zero, countH]
      ring
    | succ n =>
      simp only [List.getElem?_cons_succ] at h
      simp only [List.set_cons_succ, countH, ih n h]
      ring

theorem countH_ge_one (v : HState) (hs : List HState) (i : Nat)
    (h : hs[i]? = some v) : 1 ≤ countH v hs := by
  induction hs generalizing i with
  | nil => simp at h
  | cons hd t ih =>
    cases i with
    | zero =>
      simp only [List.getElem?_cons_zero, Option.some.injEq] at h
      have := countH_nonneg v t
      rw [h]
      simp only [countH, if_pos rfl, if_true]
      omega
    | succ n =>
      simp only [List.getElem?_cons_succ] at h
      have h1 := ih n h
      simp only [countH]
      split <;> omega

theorem countH_ge_two (v : HState) (hs : List HState) (i j : Nat)
    (hij : i ≠ j) (hi : hs[i]? = some v) (hj : hs[j]? = some v) :
    2 ≤ countH v hs := by
  induction hs generalizing i j with
  | nil => simp at hi
  | cons hd t ih =>
    cases i with
    | zero =>
      simp only [List.getElem?_cons_zero, Option.some.injEq] at hi
      cases j with
      | zero => exact absurd rfl hij
      | succ m =>
        simp only [List.getElem?_cons_succ] at hj
        have := countH_ge_one v t m hj
        rw [hi]
        simp only [countH, if_pos rfl, if_true]
        omega
    | succ n =>
      simp only [List.getElem?_cons_succ] at hi
      cases j with
      | zero =>
        simp only [List.getElem?_cons_zero, Option.some.injEq] at hj
        have := countH_ge_one v t n hi
        rw [hj]
        simp only [countH, if_pos rfl, if_true]
        omega
      | succ m =>
        simp only [List.getElem?_cons_succ] at hj
        have h2 := ih n m (by omega) hi hj
        simp only [countH]
        split <;> omega

/-- Per-step accounting of object destruction: `DeleteObject()` runs at a step
exactly when the strong counter goes from 1 to 0 across the step. -/
def destroyDelta (a b : Config) : Prop :=
  (b.objDestroys = a.objDestroys + 1 ∧ a.strong = 1 ∧ b.strong = 0) ∨
  (b.objDestroys = a.objDestroys ∧ ¬(a.strong = 1 ∧ b.strong = 0))

/-- Per-step accounting of control-block deallocation: `delete block_` runs at
a step exactly when the sum of the two counters goes from positive to 0. -/
def freeDelta (a b : Config) : Prop :=
  (b.blockFrees = a.blockFrees + 1 ∧ 0 < a.strong + a.weak ∧ b.strong + b.weak = 0) ∨
  (b.blockFrees = a.blockFrees ∧ ¬(0 < a.strong + a.weak ∧ b.strong + b.weak = 0))

/-- Full specification of one machine step starting from a well-formed
configuration. -/
def StepSpec (a b : Config) : Prop :=
  WF b ∧ destroyDelta a b ∧ freeDelta a b ∧ b.mixin = a.mixin


theorem stepSpec_mk (c : Config) (s w : Int) (oa wd mx ba : Bool)
    (hs : List HState) (od bf : Nat)
    (e1 : s = nStrong hs) (e2 : w = nWeak hs + (if wd then 1 else 0))
    (e3 : oa = true ↔ 0 < s) (e4 : wd = true ↔ (mx = true ∧ oa = true))
    (e5 : ba = true ↔ 0 < s + w) (e6 : od = if oa then 0 else 1)
    (e7 : bf = if ba then 0 else 1)
    (e8 : (od = c.objDestroys + 1 ∧ c.strong = 1 ∧ s = 0) ∨
          (od = c.objDestroys ∧ ¬(c.strong = 1 ∧ s = 0)))
    (e9 : (bf = c.blockFrees + 1 ∧ 0 < c.strong + c.weak ∧ s + w = 0) ∨
          (bf = c.blockFrees ∧ ¬(0 < c.strong + c.weak ∧ s + w = 0)))
    (e10 : mx = c.mixin) :
    StepSpec c ⟨s, w, oa, wd, mx, ba, hs, od, bf⟩ :=
  ⟨⟨e1, e2, e3, e4, e5, e6, e7⟩, e8, e9, e10⟩

theorem sharedDecrement_eq_noDestroy (c : Config) (h : ¬ c.strong - 1 = 0) :
    sharedDecrement c = { c with strong := c.strong - 1 } := by
  simp only [sharedDecrement]
  rw [if_neg (fun hh => h hh.1), if_neg (fun hh => h hh.1)]

theorem sharedDecrement_eq_destroyKeep (c : Config) (h : c.strong - 1 = 0)
    (hwk : ¬ c.weak = 0) (hw2 : ¬ (if c.wired then c.weak - 1 else c.weak) = 0) :
    sharedDecrement c =
      { c with strong := c.strong - 1,
               weak := if c.wired then c.weak - 1 else c.weak,
               objAlive := false, wired := false,
               objDestroys := c.objDestroys + 1 } := by
  simp only [sharedDecrement, deleteObject]
  rw [if_pos ⟨h, hwk⟩, if_neg hw2]

theorem sharedDecrement_eq_destroyFree (c : Config) (h : c.strong - 1 = 0)
    (hwk : ¬ c.weak = 0) (hw2 : (if c.wired then c.weak - 1 else c.weak) = 0) :
    sharedDecrement c =
      { c with strong := c.strong - 1,
               weak := if c.wired then c.weak - 1 else c.weak,
               objAlive := false, wired := false,
               objDestroys := c.objDestroys + 1,
               blockAlive := false, blockFrees := c.blockFrees + 1 } := by
  simp only [sharedDecrement, deleteObject, freeBlock]
  rw [if_pos ⟨h, hwk⟩, if_pos hw2]

theorem sharedDecrement_eq_destroyFreeZero (c : Config) (h : c.strong - 1 = 0)
    (hwk : c.weak = 0) :
    sharedDecrement c =
      { c with strong := c.strong - 1,
               weak := if c.wired then c.weak - 1 else c.weak,
               objAlive := false, wired := false,
               objDestroys := c.objDestroys + 1,
               blockAlive := false, blockFrees := c.blockFrees + 1 } := by
  simp only [sharedDecrement, deleteObject, freeBlock]
  rw [if_neg (fun hh => hh.2 hwk), if_pos ⟨h, hwk⟩]

theorem weakDecrement_eq_free (c : Config) (h1 : c.strong = 0) (h2 : c.weak - 1 = 0) :
    weakDecrement c =
      { c with weak := c.weak - 1, blockAlive := false, blockFrees := c.blockFrees + 1 } := by
  simp only [weakDecrement, freeBlock]
  rw [if_pos ⟨h1, h2⟩]

theorem weakDecrement_eq_keep (c : Config) (h : ¬ (c.strong = 0 ∧ c.weak - 1 = 0)) :
    weakDecrement c = { c with weak := c.weak - 1 } := by
  simp only [weakDecrement]
  rw [if_neg h]

theorem if_weak_sub (c : Config) :
    (if c.wired then c.weak - 1 else c.weak) =
      c.weak - (if c.wired then (1:Int) else 0) := by
  by_cases h : c.wired = true <;> simp [h]

theorem if_wired_bounds (c : Config) :
    (0:Int) ≤ (if c.wired then (1:Int) else 0) ∧ (if c.wired then (1:Int) else 0) ≤ 1 := by
  by_cases h : c.wired = true <;> simp [h]

theorem replace_handles_spec (c : Config) (hs' : List HState) (hWF : WF c)
    (hS : nStrong hs' = nStrong c.handles) (hW : nWeak hs' = nWeak c.handles) :
    StepSpec c { c with handles := hs' } := by
  obtain ⟨h1, h2, h3, h4, h5, h6, h7⟩ := hWF
  apply stepSpec_mk
  · (try dsimp only); omega
  · (try dsimp only); omega
  · exact h3
  · exact h4
  · exact h5
  · exact h6
  · exact h7
  · exact Or.inr ⟨rfl, by (try dsimp only); omega⟩
  · exact Or.inr ⟨rfl, by (try dsimp only); omega⟩
  · rfl

theorem incStrong_spec (c : Config) (hs' : List HState) (hWF : WF c)
    (hpos : 1 ≤ c.strong)
    (hS : nStrong hs' = nStrong c.handles + 1) (hW : nWeak hs' = nWeak c.handles) :
    StepSpec c { c with strong := c.strong + 1, handles := hs' } := by
  obtain ⟨h1, h2, h3, h4, h5, h6, h7⟩ := hWF
  have hWnn : 0 ≤ nWeak c.handles := countH_nonneg _ _
  have hA := if_wired_bounds c
  apply stepSpec_mk
  · (try dsimp only); omega
  · (try dsimp only); omega
  · dsimp only
    exact ⟨fun _ => by omega, fun _ => h3.mpr (by omega)⟩
  · exact h4
  · dsimp only
    exact ⟨fun _ => by omega, fun _ => h5.mpr (by omega)⟩
  · exact h6
  · exact h7
  · exact Or.inr ⟨rfl, by (try dsimp only); omega⟩
  · exact Or.inr ⟨rfl, by (try dsimp only); omega⟩
  · rfl

theorem incWeak_spec (c : Config) (hs' : List HState) (hWF : WF c)
    (hpos : 0 < c.strong + c.weak)
    (hS : nStrong hs' = nStrong c.handles) (hW : nWeak hs' = nWeak c.handles + 1) :
    StepSpec c { c with weak := c.weak + 1, handles := hs' } := by
  obtain ⟨h1, h2, h3, h4, h5, h6, h7⟩ := hWF
  apply stepSpec_mk
  · (try dsimp only); omega
  · (try dsimp only); omega
  · exact h3
  · exact h4
  · dsimp only
    exact ⟨fun _ => by omega, fun _ => h5.mpr (by omega)⟩
  · exact h6
  · exact h7
  · exact Or.inr ⟨rfl, by (try dsimp only); omega⟩
  · exact Or.inr ⟨rfl, by (try dsimp only); omega⟩
  · rfl

theorem hDec_spec (c : Config) (i : Nat) (hi : HState) (hWF : WF c)
    (hget : c.handles[i]? = some hi) (hs' : List HState)
    (hS : nStrong hs' = nStrong c.handles - (if hi = .sBound then 1 else 0))
    (hW : nWeak hs' = nWeak c.handles - (if hi = .wBound then 1 else 0)) :
    StepSpec c { hDecrement c hi with handles := hs' } := by
  have hWF' := hWF
  obtain ⟨h1, h2, h3, h4, h5, h6, h7⟩ := hWF'
  have hSnn : 0 ≤ nStrong c.handles := countH_nonneg _ _
  have hWnn : 0 ≤ nWeak c.handles := countH_nonneg _ _
  have hA := if_wired_bounds c
  have hsub := if_weak_sub c
  cases hi with
  | sNull => exact replace_handles_spec c hs' hWF (by simpa using hS) (by simpa using hW)
  | wNull => exact replace_handles_spec c hs' hWF (by simpa using hS) (by simpa using hW)
  | dead => exact replace_handles_spec c hs' hWF (by simpa using hS) (by simpa using hW)
  | sBound =>
    simp only [hDecrement]
    simp at hS hW
    have hpos : 1 ≤ nStrong c.handles := countH_ge_one _ _ _ hget
    have hOA : c.objAlive = true := h3.mpr (by omega)
    have h6' : c.objDestroys = 0 := by simp [h6, hOA]
    have hba : c.blockAlive = true := h5.mpr (by omega)
    have h7' : c.blockFrees = 0 := by simp [h7, hba]
    by_cases hs1 : c.strong - 1 = 0
    · by_cases hwk : c.weak = 0
      · rw [sharedDecrement_eq_destroyFreeZero c hs1 hwk]
        apply stepSpec_mk
        · (try dsimp only); omega
        · (try dsimp only); simp only [Bool.false_eq_true, if_false]; omega
        · (try dsimp only); simp only [Bool.false_eq_true, false_iff]; omega
        · (try dsimp only); simp
        · (try dsimp only); simp only [Bool.false_eq_true, false_iff]; omega
        · (try dsimp only); simp [h6']
        · (try dsimp only); simp [h7']
        · exact Or.inl ⟨rfl, by omega, by (try dsimp only); omega⟩
        · exact Or.inl ⟨rfl, by omega, by (try dsimp only); omega⟩
        · rfl
      · by_cases hw2 : (if c.wired then c.weak - 1 else c.weak) = 0
        · rw [sharedDecrement_eq_destroyFree c hs1 hwk hw2]
          apply stepSpec_mk
          · (try dsimp only); omega
          · (try dsimp only); simp only [Bool.false_eq_true, if_false]; omega
          · (try dsimp only); simp only [Bool.false_eq_true, false_iff]; omega
          · (try dsimp only); simp
          · (try dsimp only); simp only [Bool.false_eq_true, false_iff]; omega
          · (try dsimp only); simp [h6']
          · (try dsimp only); simp [h7']
          · exact Or.inl ⟨rfl, by omega, by (try dsimp only); omega⟩
          · exact Or.inl ⟨rfl, by omega, by (try dsimp only); omega⟩
          · rfl
        · rw [sharedDecrement_eq_destroyKeep c hs1 hwk hw2]
          apply stepSpec_mk
          · (try dsimp only); omega
          · (try dsimp only); simp only [Bool.false_eq_true, if_false]; omega
          · (try dsimp only); simp only [Bool.false_eq_true, false_iff]; omega
          · (try dsimp only); simp
          · (try dsimp only); rw [hba]; simp only [true_iff]; omega
          · (try dsimp only); simp [h6']
          · (try dsimp only); exact h7
          · exact Or.inl ⟨rfl, by omega, by (try dsimp only); omega⟩
          · exact Or.inr ⟨rfl, by (try dsimp only); omega⟩
          · rfl
    · rw [sharedDecrement_eq_noDestroy c hs1]
      apply stepSpec_mk
      · (try dsimp only); omega
      · (try dsimp only); omega
      · (try dsimp only); rw [hOA]; simp only [true_iff]; omega
      · exact h4
      · (try dsimp only); rw [hba]; simp only [true_iff]; omega
      · exact h6
      · exact h7
      · exact Or.inr ⟨rfl, by (try dsimp only); omega⟩
      · exact Or.inr ⟨rfl, by (try dsimp only); omega⟩
      · rfl
  | wBound =>
    simp only [hDecrement]
    simp at hS hW
    have hposW : 1 ≤ nWeak c.handles := countH_ge_one _ _ _ hget
    have hba : c.blockAlive = true := h5.mpr (by omega)
    have h7' : c.blockFrees = 0 := by simp [h7, hba]
    by_cases hfree : c.strong = 0 ∧ c.weak - 1 = 0
    · rw [weakDecrement_eq_free c hfree.1 hfree.2]
      apply stepSpec_mk
      · (try dsimp only); omega
      · (try dsimp only); omega
      · exact h3
      · exact h4
      · (try dsimp only); simp only [Bool.false_eq_true, false_iff]; omega
      · exact h6
      · (try dsimp only); simp [h7']
      · exact Or.inr ⟨rfl, by (try dsimp only); omega⟩
      · exact Or.inl ⟨rfl, by omega, by (try dsimp only); omega⟩
      · rfl
    · rw [weakDecrement_eq_keep c hfree]
      apply stepSpec_mk
      · (try dsimp only); omega
      · (try dsimp only); omega
      · exact h3
      · exact h4
      · (try dsimp only); rw [hba]; simp only [true_iff]; omega
      · exact h6
      · exact h7
      · exact Or.inr ⟨rfl, by (try dsimp only); omega⟩
      · exact Or.inr ⟨rfl, by (try dsimp only); omega⟩
      · rfl

theorem nStrong_nonneg (hs : List HState) : 0 ≤ nStrong hs := countH_nonneg _ _

theorem nWeak_nonneg (hs : List HState) : 0 ≤ nWeak hs := countH_nonneg _ _

theorem nStrong_append (hs : List HState) (x : HState) :
    nStrong (hs ++ [x]) = nStrong hs + (if x = .sBound then 1 else 0) :=
  countH_append _ _ _

theorem nWeak_append (hs : List HState) (x : HState) :
    nWeak (hs ++ [x]) = nWeak hs + (if x = .wBound then 1 else 0) :=
  countH_append _ _ _

theorem nStrong_set (hs : List HState) (i : Nat) (u x : HState) (h : hs[i]? = some u) :
    nStrong (hs.set i x) =
      nStrong hs - (if u = .sBound then 1 else 0) + (if x = .sBound then 1 else 0) :=
  countH_set _ _ _ _ _ h

theorem nWeak_set (hs : List HState) (i : Nat) (u x : HState) (h : hs[i]? = some u) :
    nWeak (hs.set i x) =
      nWeak hs - (if u = .wBound then 1 else 0) + (if x = .wBound then 1 else 0) :=
  countH_set _ _ _ _ _ h

theorem nStrong_ge_one (hs : List HState) (i : Nat) (h : hs[i]? = some .sBound) :
    1 ≤ nStrong hs := countH_ge_one _ _ _ h

theorem nWeak_ge_one (hs : List HState) (i : Nat) (h : hs[i]? = some .wBound) :
    1 ≤ nWeak hs := countH_ge_one _ _ _ h

theorem nStrong_ge_two (hs : List HState) (i j : Nat) (hij : i ≠ j)
    (hi : hs[i]? = some .sBound) (hj : hs[j]? = some .sBound) : 2 ≤ nStrong hs :=
  countH_ge_two _ _ _ _ hij hi hj

theorem nWeak_ge_two (hs : List HState) (i j : Nat) (hij : i ≠ j)
    (hi : hs[i]? = some .wBound) (hj : hs[j]? = some .wBound) : 2 ≤ nWeak hs :=
  countH_ge_two _ _ _ _ hij hi hj

theorem step_spec_copyCon (a b : Config) (i : Nat) (hWF : WF a)
    (h : step a (.copyCon i) = some b) : StepSpec a b := by
  have hWF' := hWF
  obtain ⟨h1, h2, h3, h4, h5, h6, h7⟩ := hWF'
  have hA := if_wired_bounds a
  simp only [step] at h
  rcases hg : a.handles[i]? with _ | hi
  · rw [hg] at h; simp at h
  · rw [hg] at h
    cases hi with
    | sBound =>
      simp only [Option.some.injEq] at h
      subst h
      exact incStrong_spec a _ hWF (by have := nStrong_ge_one a.handles i hg; omega)
        (by simp [nStrong_append]) (by simp [nWeak_append])
    | sNull =>
      simp only [Option.some.injEq] at h
      subst h
      exact replace_handles_spec a _ hWF (by simp [nStrong_append]) (by simp [nWeak_append])
    | wBound =>
      simp only [Option.some.injEq] at h
      subst h
      exact incWeak_spec a _ hWF
        (by have := nWeak_ge_one a.handles i hg; have := nStrong_nonneg a.handles; omega)
        (by simp [nStrong_append]) (by simp [nWeak_append])
    | wNull =>
      simp only [Option.some.injEq] at h
      subst h
      exact replace_handles_spec a _ hWF (by simp [nStrong_append]) (by simp [nWeak_append])
    | dead => simp at h

theorem step_spec_moveCon (a b : Config) (i : Nat) (hWF : WF a)
    (h : step a (.moveCon i) = some b) : StepSpec a b := by
  simp only [step] at h
  rcases hg : a.handles[i]? with _ | hi
  · rw [hg] at h; simp at h
  · rw [hg] at h
    cases hi with
    | dead => simp at h
    | sBound =>
      simp only [Option.some.injEq] at h
      subst h
      exact replace_handles_spec a _ hWF
        (by simp [nStrong_append, nStrong_set _ _ _ _ hg, nullOf])
        (by simp [nWeak_append, nWeak_set _ _ _ _ hg, nullOf])
    | sNull =>
      simp only [Option.some.injEq] at h
      subst h
      exact replace_handles_spec a _ hWF
        (by simp [nStrong_append, nStrong_set _ _ _ _ hg, nullOf])
        (by simp [nWeak_append, nWeak_set _ _ _ _ hg, nullOf])
    | wBound =>
      simp only [Option.some.injEq] at h
      subst h
      exact replace_handles_spec a _ hWF
        (by simp [nStrong_append, nStrong_set _ _ _ _ hg, nullOf])
        (by simp [nWeak_append, nWeak_set _ _ _ _ hg, nullOf])
    | wNull =>
      simp only [Option.some.injEq] at h
      subst h
      exact replace_handles_spec a _ hWF
        (by simp [nStrong_append, nStrong_set _ _ _ _ hg, nullOf])
        (by simp [nWeak_append, nWeak_set _ _ _ _ hg, nullOf])

theorem stepSpec_refl (a : Config) (hWF : WF a) : StepSpec a a :=
  ⟨hWF, Or.inr ⟨rfl, by omega⟩, Or.inr ⟨rfl, by omega⟩, rfl⟩

theorem countH_set2 (v : HState) (hs : List HState) (i j : Nat) (hij : i ≠ j)
    (hi hj x y : HState) (hgi : hs[i]? = some hi) (hgj : hs[j]? = some hj) :
    countH v ((hs.set i x).set j y) =
      countH v hs - (if hi = v then 1 else 0) + (if x = v then 1 else 0)
        - (if hj = v then 1 else 0) + (if y = v then 1 else 0) := by
  rw [countH_set v _ j hj y (by rw [List.getElem?_set_ne hij]; exact hgj),
      countH_set v _ i hi x hgi]

theorem countH_swap (v : HState) (hs : List HState) (i j : Nat)
    (hi hj : HState) (hgi : hs[i]? = some hi) (hgj : hs[j]? = some hj) :
    countH v ((hs.set i hj).set j hi) = countH v hs := by
  by_cases hij : i = j
  · subst hij
    have hh : hi = hj := by rw [hgi] at hgj; injection hgj
    subst hh
    have hlt : i < hs.length := (List.getElem?_eq_some.mp hgi).1
    rw [countH_set v _ i hi hi (by rw [List.getElem?_set_eq_of_lt _ hlt]),
        countH_set v _ i hi hi hgi]
    omega
  · rw [countH_set v _ j hj hi (by rw [List.getElem?_set_ne hij]; exact hgj),
        countH_set v _ i hi hj hgi]
    omega

theorem step_spec_destroy (a b : Config) (i : Nat) (hWF : WF a)
    (h : step a (.destroy i) = some b) : StepSpec a b := by
  simp only [step] at h
  rcases hg : a.handles[i]? with _ | hi
  · rw [hg] at h; simp at h
  · rw [hg] at h
    cases hi with
    | dead => simp at h
    | sBound =>
      simp only [Option.some.injEq] at h
      subst h
      exact hDec_spec a i _ hWF hg _ (by simp [nStrong_set _ _ _ _ hg])
        (by simp [nWeak_set _ _ _ _ hg])
    | sNull =>
      simp only [Option.some.injEq] at h
      subst h
      exact hDec_spec a i _ hWF hg _ (by simp [nStrong_set _ _ _ _ hg])
        (by simp [nWeak_set _ _ _ _ hg])
    | wBound =>
      simp only [Option.some.injEq] at h
      subst h
      exact hDec_spec a i _ hWF hg _ (by simp [nStrong_set _ _ _ _ hg])
        (by simp [nWeak_set _ _ _ _ hg])
    | wNull =>
      simp only [Option.some.injEq] at h
      subst h
      exact hDec_spec a i _ hWF hg _ (by simp [nStrong_set _ _ _ _ hg])
        (by simp [nWeak_set _ _ _ _ hg])

theorem step_spec_reset (a b : Config) (i : Nat) (hWF : WF a)
    (h : step a (.reset i) = some b) : StepSpec a b := by
  simp only [step] at h
  rcases hg : a.handles[i]? with _ | hi
  · rw [hg] at h; simp at h
  · rw [hg] at h
    cases hi with
    | dead => simp at h
    | sBound =>
      simp only [Option.some.injEq] at h
      subst h
      exact hDec_spec a i _ hWF hg _ (by simp [nStrong_set _ _ _ _ hg, nullOf])
        (by simp [nWeak_set _ _ _ _ hg, nullOf])
    | sNull =>
      simp only [Option.some.injEq] at h
      subst h
      exact hDec_spec a i _ hWF hg _ (by simp [nStrong_set _ _ _ _ hg, nullOf])
        (by simp [nWeak_set _ _ _ _ hg, nullOf])
    | wBound =>
      simp only [Option.some.injEq] at h
      subst h
      exact hDec_spec a i _ hWF hg _ (by simp [nStrong_set _ _ _ _ hg, nullOf])
        (by simp [nWeak_set _ _ _ _ hg, nullOf])
    | wNull =>
      simp only [Option.some.injEq] at h
      subst h
      exact hDec_spec a i _ hWF hg _ (by simp [nStrong_set _ _ _ _ hg, nullOf])
        (by simp [nWeak_set _ _ _ _ hg, nullOf])

theorem step_spec_swap (a b : Config) (i j : Nat) (hWF : WF a)
    (h : step a (.swapOp i j) = some b) : StepSpec a b := by
  simp only [step] at h
  rcases hgi : a.handles[i]? with _ | hi
  · rw [hgi] at h; simp at h
  · rcases hgj : a.handles[j]? with _ | hj
    · rw [hgi, hgj] at h; simp at h
    · rw [hgi, hgj] at h
      cases hi <;> cases hj <;> simp [isStrongKind] at h <;>
        (subst h
         exact replace_handles_spec a _ hWF (countH_swap _ _ _ _ _ _ hgi hgj)
           (countH_swap _ _ _ _ _ _ hgi hgj))

theorem step_spec_demote (a b : Config) (i : Nat) (hWF : WF a)
    (h : step a (.demote i) = some b) : StepSpec a b := by
  have hWF' := hWF
  obtain ⟨h1, h2, h3, h4, h5, h6, h7⟩ := hWF'
  have hA := if_wired_bounds a
  have hWnn := nWeak_nonneg a.handles
  simp only [step] at h
  rcases hg : a.handles[i]? with _ | hi
  · rw [hg] at h; simp at h
  · rw [hg] at h
    cases hi with
    | sBound =>
      simp only [Option.some.injEq] at h
      subst h
      exact incWeak_spec a _ hWF (by have := nStrong_ge_one a.handles i hg; omega)
        (by simp [nStrong_append]) (by simp [nWeak_append])
    | sNull =>
      simp only [Option.some.injEq] at h
      subst h
      exact replace_handles_spec a _ hWF (by simp [nStrong_append]) (by simp [nWeak_append])
    | wBound => simp at h
    | wNull => simp at h
    | dead => simp at h

theorem step_spec_lock (a b : Config) (i : Nat) (hWF : WF a)
    (h : step a (.lock i) = some b) : StepSpec a b := by
  have hWF' := hWF
  obtain ⟨h1, h2, h3, h4, h5, h6, h7⟩ := hWF'
  have hSnn := nStrong_nonneg a.handles
  simp only [step] at h
  rcases hg : a.handles[i]? with _ | hi
  · rw [hg] at h; simp at h
  · rw [hg] at h
    cases hi with
    | wBound =>
      by_cases hs0 : a.strong = 0
      · rw [if_pos hs0] at h
        simp only [Option.some.injEq] at h
        subst h
        exact replace_handles_spec a _ hWF (by simp [nStrong_append]) (by simp [nWeak_append])
      · rw [if_neg hs0] at h
        simp only [Option.some.injEq] at h
        subst h
        exact incStrong_spec a _ hWF (by omega)
          (by simp [nStrong_append]) (by simp [nWeak_append])
    | wNull =>
      simp only [Option.some.injEq] at h
      subst h
      exact replace_handles_spec a _ hWF (by simp [nStrong_append]) (by simp [nWeak_append])
    | sBound => simp at h
    | sNull => simp at h
    | dead => simp at h

theorem step_spec_promote (a b : Config) (i : Nat) (hWF : WF a)
    (h : step a (.promote i) = some b) : StepSpec a b := by
  have hWF' := hWF
  obtain ⟨h1, h2, h3, h4, h5, h6, h7⟩ := hWF'
  have hSnn := nStrong_nonneg a.handles
  simp only [step] at h
  rcases hg : a.handles[i]? with _ | hi
  · rw [hg] at h; simp at h
  · rw [hg] at h
    cases hi with
    | wBound =>
      by_cases hs0 : a.strong = 0
      · rw [if_pos hs0] at h
        simp only [Option.some.injEq] at h
        subst h
        exact stepSpec_refl a hWF
      · rw [if_neg hs0] at h
        simp only [Option.some.injEq] at h
        subst h
        exact incStrong_spec a _ hWF (by omega)
          (by simp [nStrong_append]) (by simp [nWeak_append])
    | wNull => simp at h
    | sBound => simp at h
    | sNull => simp at h
    | dead => simp at h

theorem step_spec_assignMove (a b : Config) (i j : Nat) (hWF : WF a)
    (h : step a (.assignMove i j) = some b) : StepSpec a b := by
  simp only [step] at h
  rcases hgi : a.handles[i]? with _ | hi
  · rw [hgi] at h; simp at h
  · rcases hgj : a.handles[j]? with _ | hj
    · rw [hgi, hgj] at h; simp at h
    · rw [hgi, hgj] at h
      by_cases hij : i = j
      · subst hij
        have hh : hi = hj := by rw [hgi] at hgj; injection hgj
        subst hh
        cases hi <;> simp [isStrongKind] at h <;> (subst h; exact stepSpec_refl a hWF)
      · cases hi <;> cases hj <;> simp [isStrongKind, hij] at h <;> subst h
        all_goals
          exact hDec_spec a i _ hWF hgi _
            (by simp [nStrong, nullOf, countH_set2 _ _ _ _ hij _ _ _ _ hgi hgj]; try omega)
            (by simp [nWeak, nullOf, countH_set2 _ _ _ _ hij _ _ _ _ hgi hgj]; try omega)

theorem step_spec_assignCopy (a b : Config) (i j : Nat) (hWF : WF a)
    (h : step a (.assignCopy i j) = some b) : StepSpec a b := by
  have hWF' := hWF
  obtain ⟨h1, h2, h3, h4, h5, h6, h7⟩ := hWF'
  have hA := if_wired_bounds a
  have hSnn := nStrong_nonneg a.handles
  have hWnn := nWeak_nonneg a.handles
  simp only [step] at h
  rcases hgi : a.handles[i]? with _ | hi
  · rw [hgi] at h; simp at h
  · rcases hgj : a.handles[j]? with _ | hj
    · rw [hgi, hgj] at h; simp at h
    · rw [hgi, hgj] at h
      by_cases hij : i = j
      · subst hij
        have hh : hi = hj := by rw [hgi] at hgj; injection hgj
        subst hh
        cases hi <;> simp [isStrongKind] at h <;> (subst h; exact stepSpec_refl a hWF)
      · cases hi <;> cases hj <;> simp [isStrongKind, hij] at h <;> subst h
        · -- SharedPtr bound := SharedPtr bound (two distinct bound handles)
          have h2s : 2 ≤ nStrong a.handles := nStrong_ge_two _ _ _ hij hgi hgj
          have hset := nStrong_set a.handles i .sBound .sBound hgi
          have hsetW := nWeak_set a.handles i .sBound .sBound hgi
          have hOA : a.objAlive = true := h3.mpr (by omega)
          have hba : a.blockAlive = true := h5.mpr (by omega)
          simp only [hDecrement]
          rw [sharedDecrement_eq_noDestroy a (by omega)]
          simp only [bindInc]
          apply stepSpec_mk
          · (try dsimp only); simp at hset; omega
          · (try dsimp only); simp at hsetW; omega
          · (try dsimp only); rw [hOA]; simp only [true_iff]; omega
          · exact h4
          · (try dsimp only); rw [hba]; simp only [true_iff]; omega
          · exact h6
          · exact h7
          · exact Or.inr ⟨rfl, by (try dsimp only); omega⟩
          · exact Or.inr ⟨rfl, by (try dsimp only); omega⟩
          · rfl
        · -- SharedPtr bound := SharedPtr null
          exact hDec_spec a i _ hWF hgi _
            (by simp [nStrong_set a.handles i _ _ hgi])
            (by simp [nWeak_set a.handles i _ _ hgi])
        · -- SharedPtr null := SharedPtr bound
          exact incStrong_spec a _ hWF (by have := nStrong_ge_one a.handles j hgj; omega)
            (by simp [nStrong_set a.handles i _ _ hgi])
            (by simp [nWeak_set a.handles i _ _ hgi])
        · -- SharedPtr null := SharedPtr null
          exact replace_handles_spec a _ hWF
            (by simp [nStrong_set a.handles i _ _ hgi])
            (by simp [nWeak_set a.handles i _ _ hgi])
        · -- WeakPtr bound := WeakPtr bound (two distinct bound handles)
          have h2w : 2 ≤ nWeak a.handles := nWeak_ge_two _ _ _ hij hgi hgj
          have hset := nStrong_set a.handles i .wBound .wBound hgi
          have hsetW := nWeak_set a.handles i .wBound .wBound hgi
          have hba : a.blockAlive = true := h5.mpr (by omega)
          simp only [hDecrement]
          rw [weakDecrement_eq_keep a (by omega)]
          simp only [bindInc]
          apply stepSpec_mk
          · (try dsimp only); simp at hset; omega
          · (try dsimp only); simp at hsetW; omega
          · exact h3
          · exact h4
          · (try dsimp only); rw [hba]; simp only [true_iff]; omega
          · exact h6
          · exact h7
          · exact Or.inr ⟨rfl, by (try dsimp only); omega⟩
          · exact Or.inr ⟨rfl, by (try dsimp only); omega⟩
          · rfl
        · -- WeakPtr bound := WeakPtr null
          exact hDec_spec a i _ hWF hgi _
            (by simp [nStrong_set a.handles i _ _ hgi])
            (by simp [nWeak_set a.handles i _ _ hgi])
        · -- WeakPtr null := WeakPtr bound
          exact incWeak_spec a _ hWF (by have := nWeak_ge_one a.handles j hgj; omega)
            (by simp [nStrong_set a.handles i _ _ hgi])
            (by simp [nWeak_set a.handles i _ _ hgi])
        · -- WeakPtr null := WeakPtr null
          exact replace_handles_spec a _ hWF
            (by simp [nStrong_set a.handles i _ _ hgi])
            (by simp [nWeak_set a.handles i _ _ hgi])

theorem step_spec (a b : Config) (op : Op) (hWF : WF a) (h : step a op = some b) :
    StepSpec a b := by
  cases op with
  | copyCon i => exact step_spec_copyCon a b i hWF h
  | moveCon i => exact step_spec_moveCon a b i hWF h
  | assignCopy i j => exact step_spec_assignCopy a b i j hWF h
  | assignMove i j => exact step_spec_assignMove a b i j hWF h
  | reset i => exact step_spec_reset a b i hWF h
  | swapOp i j => exact step_spec_swap a b i j hWF h
  | destroy i => exact step_spec_destroy a b i hWF h
  | demote i => exact step_spec_demote a b i hWF h
  | lock i => exact step_spec_lock a b i hWF h
  | promote i => exact step_spec_promote a b i hWF h

theorem run_WF (ops : List Op) (c c' : Config) (hWF : WF c)
    (h : run c ops = some c') : WF c' := by
  induction ops generalizing c with
  | nil =>
    simp only [run, Option.some.injEq] at h
    subst h
    exact hWF
  | cons op t ih =>
    simp only [run] at h
    rcases hs : step c op with _ | c1
    · rw [hs] at h; simp at h
    · rw [hs] at h
      exact ih c1 (step_spec c c1 op hWF hs).1 h

theorem WF_initConfig (m : Bool) : WF (initConfig m) := by
  cases m <;> simp [WF, initConfig, nStrong, nWeak, countH]

/-- `UseCount()`: `SharedPtr` (shared.h lines 302-308) and `WeakPtr`
(weak.h lines 102-108) implement it identically: the block's strong counter
when `block_` is non-null, otherwise 0. -/
def hUseCount (c : Config) : HState → Int
  | .sBound => c.strong
  | .wBound => c.strong
  | _ => 0

/-- `WeakPtr::Expired` (weak.h lines 110-112): `UseCount() == 0`. -/
def hExpired (c : Config) (h : HState) : Bool := hUseCount c h == 0

/-- C1: over every defined trace of construct/copy/move/assign/Reset/Swap/
destroy (and demote/lock/promote) operations on handles sharing one control
block, started at the construction of the first `SharedPtr`, the managed
object is destroyed at most once, is destroyed (once) exactly when the strong
count has reached 0, and the destruction happens exactly at the operation that
takes the strong count from 1 to 0. -/
theorem C1_object_destroyed_exactly_once (m : Bool) (ops : List Op) (c' : Config)
    (h : run (initConfig m) ops = some c') :
    c'.objDestroys ≤ 1 ∧
    (c'.objDestroys = 1 ↔ c'.strong = 0) ∧
    (∀ l1 op l2 a b, ops = l1 ++ op :: l2 →
      run (initConfig m) l1 = some a → step a op = some b →
      ((b.objDestroys = a.objDestroys + 1 ↔ (a.strong = 1 ∧ b.strong = 0)) ∧
       a.objDestroys ≤ b.objDestroys ∧ b.objDestroys ≤ a.objDestroys + 1)) := by
  have hWF' := run_WF ops (initConfig m) c' (WF_initConfig m) h
  obtain ⟨h1, h2, h3, h4, h5, h6, h7⟩ := hWF'
  have hSnn := nStrong_nonneg c'.handles
  refine ⟨?_, ?_, ?_⟩
  · rw [h6]; split <;> omega
  · rcases hoa : c'.objAlive with _ | _
    · rw [hoa] at h3 h6
      simp at h3 h6
      omega
    · rw [hoa] at h3 h6
      simp at h3 h6
      omega
  · intro l1 op l2 a b hsplit hrun hstep
    have hWFa := run_WF l1 (initConfig m) a (WF_initConfig m) hrun
    have hspec := step_spec a b op hWFa hstep
    obtain ⟨-, hd, -, -⟩ := hspec
    unfold destroyDelta at hd
    constructor
    · constructor
      · intro he
        rcases hd with ⟨-, hc⟩ | ⟨he2, -⟩
        · exact hc
        · omega
      · intro hc
        rcases hd with ⟨he2, -⟩ | ⟨-, hc2⟩
        · omega
        · exact absurd hc hc2
    · rcases hd with ⟨he2, -⟩ | ⟨he2, -⟩ <;> omega

/-- C2: over every defined trace on one control block, the block is freed at
most once, is freed (once) exactly when both counters have reached 0, stays
allocated while the strong count is 0 but the weak count positive (so a
surviving `WeakPtr` still reads the counters and reports expired), and the
deallocation happens exactly at the operation that takes `strong + weak` from
positive to 0. -/
theorem C2_block_freed_exactly_once (m : Bool) (ops : List Op) (c' : Config)
    (h : run (initConfig m) ops = some c') :
    c'.blockFrees ≤ 1 ∧
    (c'.blockFrees = 1 ↔ c'.strong + c'.weak = 0) ∧
    (c'.strong = 0 → 0 < c'.weak →
      c'.blockAlive = true ∧ c'.blockFrees = 0 ∧ hExpired c' .wBound = true) ∧
    (∀ l1 op l2 a b, ops = l1 ++ op :: l2 →
      run (initConfig m) l1 = some a → step a op = some b →
      ((b.blockFrees = a.blockFrees + 1 ↔
         (0 < a.strong + a.weak ∧ b.strong + b.weak = 0)) ∧
       a.blockFrees ≤ b.blockFrees ∧ b.blockFrees ≤ a.blockFrees + 1)) := by
  have hWF' := run_WF ops (initConfig m) c' (WF_initConfig m) h
  obtain ⟨h1, h2, h3, h4, h5, h6, h7⟩ := hWF'
  have hSnn := nStrong_nonneg c'.handles
  have hWnn := nWeak_nonneg c'.handles
  have hA := if_wired_bounds c'
  refine ⟨?_, ?_, ?_, ?_⟩
  · rw [h7]; split <;> omega
  · rcases hba : c'.blockAlive with _ | _
    · rw [hba] at h5 h7
      simp at h5 h7
      omega
    · rw [hba] at h5 h7
      simp at h5 h7
      omega
  · intro hs0 hwpos
    have hba : c'.blockAlive = true := h5.mpr (by omega)
    refine ⟨hba, by rw [h7, hba]; rfl, ?_⟩
    simp [hExpired, hUseCount, hs0]
  · intro l1 op l2 a b hsplit hrun hstep
    have hWFa := run_WF l1 (initConfig m) a (WF_initConfig m) hrun
    have hspec := step_spec a b op hWFa hstep
    obtain ⟨-, -, hf, -⟩ := hspec
    unfold freeDelta at hf
    constructor
    · constructor
      · intro he
        rcases hf with ⟨-, hc⟩ | ⟨he2, -⟩
        · exact hc
        · omega
      · intro hc
        rcases hf with ⟨he2, -⟩ | ⟨-, hc2⟩
        · omega
        · exact absurd hc hc2
    · rcases hf with ⟨he2, -⟩ | ⟨he2, -⟩ <;> omega

/-- C1 witness: the one-handle trace `[destroy 0]` on a non-mixin block. -/
theorem C1_object_destroyed_exactly_once_witness :
    (run (initConfig false) [Op.destroy 0] =
       some ⟨0, 0, false, false, false, false, [.dead], 1, 1⟩) ∧
    (⟨0, 0, false, false, false, false, [.dead], 1, 1⟩ : Config).objDestroys ≤ 1 ∧
    ((⟨0, 0, false, false, false, false, [.dead], 1, 1⟩ : Config).objDestroys = 1 ↔
      (⟨0, 0, false, false, false, false, [.dead], 1, 1⟩ : Config).strong = 0) :=
  ⟨by decide,
   (C1_object_destroyed_exactly_once false [Op.destroy 0] _ (by decide)).1,
   (C1_object_destroyed_exactly_once false [Op.destroy 0] _ (by decide)).2.1⟩

/-- C2 witness: `[demote 0, destroy 0, destroy 1]` — the block survives the
object (strong 0, weak 1, expired observable) and is freed by the last
`WeakPtr`'s destructor. -/
theorem C2_block_freed_exactly_once_witness :
    (run (initConfig false) [Op.demote 0, Op.destroy 0, Op.destroy 1] =
       some ⟨0, 0, false, false, false, false, [.dead, .dead], 1, 1⟩) ∧
    (⟨0, 0, false, false, false, false, [.dead, .dead], 1, 1⟩ : Config).blockFrees ≤ 1 ∧
    (run (initConfig false) [Op.demote 0, Op.destroy 0] =
       some ⟨0, 1, false, false, false, true, [.dead, .wBound], 1, 0⟩) ∧
    ((⟨0, 1, false, false, false, true, [.dead, .wBound], 1, 0⟩ : Config).blockAlive = true ∧
     (⟨0, 1, false, false, false, true, [.dead, .wBound], 1, 0⟩ : Config).blockFrees = 0 ∧
     hExpired ⟨0, 1, false, false, false, true, [.dead, .wBound], 1, 0⟩ .wBound = true) :=
  ⟨by decide,
   (C2_block_freed_exactly_once false [Op.demote 0, Op.destroy 0, Op.destroy 1] _ (by decide)).1,
   by decide,
   (C2_block_freed_exactly_once false [Op.demote 0, Op.destroy 0] _ (by decide)).2.2.1
     (by decide) (by decide)⟩

/-- C4: destroying the last `SharedPtr` of a wired-mixin object: the object is
destroyed, the mixin teardown decrements the weak counter exactly once
(`b.weak = a.weak - 1`, never twice), and when the mixin's registration was
the only weak reference the control block is freed in the same step — no
double decrement, no leak. -/
theorem C4_mixin_teardown_single_weak_decrement (a b : Config) (i : Nat) (hWF : WF a)
    (hw : a.wired = true) (hs1 : a.strong = 1)
    (hg : a.handles[i]? = some .sBound)
    (hstep : step a (.destroy i) = some b) :
    a.objDestroys = 0 ∧ b.objDestroys = 1 ∧ b.weak = a.weak - 1 ∧
    b.wired = false ∧ b.strong = 0 ∧
    (a.weak = 1 → a.blockFrees = 0 ∧ b.blockFrees = 1 ∧ b.blockAlive = false) ∧
    (1 < a.weak → b.blockAlive = a.blockAlive ∧ b.blockFrees = a.blockFrees) := by
  have hWF' := hWF
  obtain ⟨h1, h2, h3, h4, h5, h6, h7⟩ := hWF'
  have hWnn := nWeak_nonneg a.handles
  rw [hw] at h2
  simp at h2
  have hOA : a.objAlive = true := h3.mpr (by omega)
  have h6' : a.objDestroys = 0 := by simp [h6, hOA]
  have hba : a.blockAlive = true := h5.mpr (by omega)
  have h7' : a.blockFrees = 0 := by simp [h7, hba]
  simp only [step] at hstep
  rw [hg] at hstep
  simp only [Option.some.injEq] at hstep
  subst hstep
  simp only [hDecrement]
  by_cases hwk1 : a.weak = 1
  · rw [sharedDecrement_eq_destroyFree a (by omega) (by omega) (by simp [hw]; omega)]
    refine ⟨h6', by (try dsimp only); omega, by (try dsimp only); simp [hw],
      rfl, by (try dsimp only); omega, fun _ => ⟨h7', by (try dsimp only); omega, rfl⟩,
      fun hcon => absurd hwk1 (by omega)⟩
  · rw [sharedDecrement_eq_destroyKeep a (by omega) (by omega) (by simp [hw]; omega)]
    refine ⟨h6', by (try dsimp only); omega, by (try dsimp only); simp [hw],
      rfl, by (try dsimp only); omega, fun hcon => absurd hcon hwk1,
      fun _ => ⟨rfl, rfl⟩⟩

/-- C4 witness: the wired one-handle configuration produced by constructing a
`SharedPtr` over a mixin-embedding object (`initConfig true`). -/
theorem C4_mixin_teardown_witness :
    (initConfig true).wired = true ∧ (initConfig true).strong = 1 ∧
    (step (initConfig true) (.destroy 0) =
       some ⟨0, 0, false, false, true, false, [.dead], 1, 1⟩) ∧
    ((initConfig true).objDestroys = 0 ∧
     (⟨0, 0, false, false, true, false, [.dead], 1, 1⟩ : Config).objDestroys = 1 ∧
     (⟨0, 0, false, false, true, false, [.dead], 1, 1⟩ : Config).weak =
       (initConfig true).weak - 1 ∧
     (⟨0, 0, false, false, true, false, [.dead], 1, 1⟩ : Config).wired = false ∧
     (⟨0, 0, false, false, true, false, [.dead], 1, 1⟩ : Config).strong = 0) := by
  refine ⟨by decide, by decide, by decide, ?_⟩
  have hres := C4_mixin_teardown_single_weak_decrement (initConfig true)
    ⟨0, 0, false, false, true, false, [.dead], 1, 1⟩ 0
    (WF_initConfig true) (by decide) (by decide) (by decide) (by decide)
  exact ⟨hres.1, hres.2.1, hres.2.2.1, hres.2.2.2.1, hres.2.2.2.2.1⟩

/-- C5: `Lock()` returns an empty SharedPtr exactly when the WeakPtr is
unbound or the strong count is 0 at call time (never a handle to a destroyed
object: a bound result implies the object is alive), and otherwise a new
bound SharedPtr with the strong count incremented by one; `Expired()` is true
iff the strong count is zero (trivially so for an unbound WeakPtr); and
`UseCount()` returns the current strong count (0 when unbound). -/
theorem C5_lock_expired_usecount (c : Config) (hWF : WF c) :
    (∀ i, c.handles[i]? = some .wBound →
      ((hExpired c .wBound = true ↔ c.strong = 0) ∧
       hUseCount c .wBound = c.strong ∧
       (∀ b, step c (.lock i) = some b →
         (c.strong = 0 → b = { c with handles := c.handles ++ [.sNull] }) ∧
         (c.strong ≠ 0 →
           b = { c with strong := c.strong + 1, handles := c.handles ++ [.sBound] } ∧
           b.objAlive = true ∧ b.strong = c.strong + 1)))) ∧
    (∀ i, c.handles[i]? = some .wNull →
      (hExpired c .wNull = true ∧ hUseCount c .wNull = 0 ∧
       (∀ b, step c (.lock i) = some b →
         b = { c with handles := c.handles ++ [.sNull] }))) := by
  have hWF' := hWF
  obtain ⟨h1, h2, h3, h4, h5, h6, h7⟩ := hWF'
  have hSnn := nStrong_nonneg c.handles
  constructor
  · intro i hg
    refine ⟨by simp [hExpired, hUseCount], rfl, ?_⟩
    intro b hstep
    simp only [step] at hstep
    rw [hg] at hstep
    constructor
    · intro hs0
      rw [if_pos hs0] at hstep
      simp only [Option.some.injEq] at hstep
      exact hstep.symm
    · intro hs0
      rw [if_neg hs0] at hstep
      simp only [Option.some.injEq] at hstep
      subst hstep
      exact ⟨rfl, h3.mpr (by omega), rfl⟩
  · intro i hg
    refine ⟨by simp [hExpired, hUseCount], rfl, ?_⟩
    intro b hstep
    simp only [step] at hstep
    rw [hg] at hstep
    simp only [Option.some.injEq] at hstep
    exact hstep.symm

/-- C5 witness: a block with one `SharedPtr` and one `WeakPtr` (strong 1,
weak 1): the `WeakPtr` is not expired and `UseCount()` reads the strong
counter. -/
theorem C5_lock_expired_usecount_witness :
    (hExpired ⟨1, 1, true, false, false, true, [.sBound, .wBound], 0, 0⟩ .wBound = true ↔
      (⟨1, 1, true, false, false, true, [.sBound, .wBound], 0, 0⟩ : Config).strong = 0) ∧
    hUseCount ⟨1, 1, true, false, false, true, [.sBound, .wBound], 0, 0⟩ .wBound =
      (⟨1, 1, true, false, false, true, [.sBound, .wBound], 0, 0⟩ : Config).strong :=
  ⟨((C5_lock_expired_usecount _ (by unfold WF; decide)).1 1 (by decide)).1,
   ((C5_lock_expired_usecount _ (by unfold WF; decide)).1 1 (by decide)).2.1⟩

/-- C6 (amended): a copy CONSTRUCTION shares the source's control block and
increments the strong count by exactly one (a copy of a null handle stays
null); a move CONSTRUCTION transfers the (pointer, block) pair without
changing any counter and leaves the source null.  Copy and move ASSIGNMENT
first release the target's previous binding (`Decrement()`, shared.h lines
202-224) and then do the same: onto a target with no previous binding, copy
assignment from a bound source increments the strong count by exactly one
and move assignment changes no counter and nulls the source; onto a bound
target the state is the released state (`sharedDecrement`) with the new
binding adopted — in particular copy assignment between two handles of the
same block nets to unchanged counters, and move assignment onto a bound
target nets to a strong-count decrement (see the counterexample).  The
spec's `a = MakeShared; b = a; destroy a; destroy b` scenario runs as
stated. -/
theorem C6_copy_move_semantics :
    (∀ c i b, c.handles[i]? = some .sBound → step c (.copyCon i) = some b →
       b = { c with strong := c.strong + 1, handles := c.handles ++ [.sBound] }) ∧
    (∀ c i b, c.handles[i]? = some .sNull → step c (.copyCon i) = some b →
       b = { c with handles := c.handles ++ [.sNull] }) ∧
    (∀ c i hi b, c.handles[i]? = some hi → hi ≠ .dead → step c (.moveCon i) = some b →
       b = { c with handles := c.handles.set i (nullOf hi) ++ [hi] }) ∧
    (∀ c : Config, ∀ i j b, i ≠ j → c.handles[i]? = some .sNull →
       c.handles[j]? = some .sBound → step c (.assignCopy i j) = some b →
       b = { c with strong := c.strong + 1, handles := c.handles.set i .sBound }) ∧
    (∀ c : Config, ∀ i j b, i ≠ j → c.handles[i]? = some .sNull →
       c.handles[j]? = some .sNull → step c (.assignCopy i j) = some b →
       b = { c with handles := c.handles.set i .sNull }) ∧
    (∀ c : Config, ∀ i j hj b, i ≠ j → c.handles[i]? = some .sNull →
       c.handles[j]? = some hj → step c (.assignMove i j) = some b →
       b = { c with handles := (c.handles.set i hj).set j (nullOf hj) }) ∧
    (∀ c : Config, ∀ i j hj b, i ≠ j → c.handles[i]? = some .sBound →
       c.handles[j]? = some hj → step c (.assignMove i j) = some b →
       b = { sharedDecrement c with handles := (c.handles.set i hj).set j (nullOf hj) }) ∧
    (∀ c : Config, ∀ i j b, i ≠ j → c.handles[i]? = some .sBound →
       c.handles[j]? = some .sNull → step c (.assignCopy i j) = some b →
       b = { sharedDecrement c with handles := c.handles.set i .sNull }) ∧
    (∀ c : Config, ∀ i j b, WF c → i ≠ j → c.handles[i]? = some .sBound →
       c.handles[j]? = some .sBound → step c (.assignCopy i j) = some b →
       b.strong = c.strong ∧ b.weak = c.weak ∧ b.objDestroys = c.objDestroys ∧
       b.blockFrees = c.blockFrees ∧ b.handles = c.handles.set i .sBound) ∧
    hUseCount (initConfig false) .sBound = 1 ∧
    (run (initConfig false) [Op.copyCon 0] =
       some ⟨2, 0, true, false, false, true, [.sBound, .sBound], 0, 0⟩) ∧
    hUseCount ⟨2, 0, true, false, false, true, [.sBound, .sBound], 0, 0⟩ .sBound = 2 ∧
    (run (initConfig false) [Op.copyCon 0, Op.destroy 0] =
       some ⟨1, 0, true, false, false, true, [.dead, .sBound], 0, 0⟩) ∧
    hUseCount ⟨1, 0, true, false, false, true, [.dead, .sBound], 0, 0⟩ .sBound = 1 ∧
    (⟨1, 0, true, false, false, true, [.dead, .sBound], 0, 0⟩ : Config).objAlive = true ∧
    (run (initConfig false) [Op.copyCon 0, Op.destroy 0, Op.destroy 1] =
       some ⟨0, 0, false, false, false, false, [.dead, .dead], 1, 1⟩) ∧
    (⟨0, 0, false, false, false, false, [.dead, .dead], 1, 1⟩ : Config).objDestroys = 1 := by
  refine ⟨?_, ?_, ?_, ?_, ?_, ?_, ?_, ?_, ?_, by decide, by decide, by decide, by decide,
    by decide, by decide, by decide, by decide⟩
  · intro c i b hg hstep
    simp only [step] at hstep
    rw [hg] at hstep
    simp only [Option.some.injEq] at hstep
    exact hstep.symm
  · intro c i b hg hstep
    simp only [step] at hstep
    rw [hg] at hstep
    simp only [Option.some.injEq] at hstep
    exact hstep.symm
  · intro c i hi b hg hnd hstep
    simp only [step] at hstep
    rw [hg] at hstep
    cases hi with
    | dead => exact absurd rfl hnd
    | sBound => simp only [Option.some.injEq] at hstep; exact hstep.symm
    | sNull => simp only [Option.some.injEq] at hstep; exact hstep.symm
    | wBound => simp only [Option.some.injEq] at hstep; exact hstep.symm
    | wNull => simp only [Option.some.injEq] at hstep; exact hstep.symm
  · intro c i j b hij hgi hgj hstep
    simp only [step] at hstep
    rw [hgi, hgj] at hstep
    simp [isStrongKind, hij] at hstep
    exact hstep.symm
  · intro c i j b hij hgi hgj hstep
    simp only [step] at hstep
    rw [hgi, hgj] at hstep
    simp [isStrongKind, hij] at hstep
    exact hstep.symm
  · intro c i j hj b hij hgi hgj hstep
    simp only [step] at hstep
    rw [hgi, hgj] at hstep
    cases hj <;> simp [isStrongKind, hij] at hstep <;> exact hstep.symm
  · intro c i j hj b hij hgi hgj hstep
    simp only [step] at hstep
    rw [hgi, hgj] at hstep
    cases hj <;> simp [isStrongKind, hij, hDecrement] at hstep <;> exact hstep.symm
  · intro c i j b hij hgi hgj hstep
    simp only [step] at hstep
    rw [hgi, hgj] at hstep
    simp [isStrongKind, hij, hDecrement] at hstep
    exact hstep.symm
  · intro c i j b hWF hij hgi hgj hstep
    have hWF2 := hWF
    obtain ⟨h1, h2, h3, h4, h5, h6, h7⟩ := hWF2
    have h2s : 2 ≤ nStrong c.handles := nStrong_ge_two _ _ _ hij hgi hgj
    simp only [step] at hstep
    rw [hgi, hgj] at hstep
    simp [isStrongKind, hij, hDecrement, bindInc] at hstep
    rw [sharedDecrement_eq_noDestroy c (by omega)] at hstep
    subst hstep
    refine ⟨by (try dsimp only); omega, rfl, rfl, rfl, rfl⟩

/-- C6 counterexample to the claim as stated: move-ASSIGNING one bound
`SharedPtr` into another bound `SharedPtr` of the same block does change a
counter — the target's previous binding is released first (shared.h lines
214-224), so the strong count drops from 2 to 1. -/
theorem C6_move_assignment_counterexample :
    step ⟨2, 0, true, false, false, true, [.sBound, .sBound], 0, 0⟩ (.assignMove 0 1) =
      some ⟨1, 0, true, false, false, true, [.sBound, .sNull], 0, 0⟩ ∧
    (⟨1, 0, true, false, false, true, [.sBound, .sNull], 0, 0⟩ : Config).strong ≠
      (⟨2, 0, true, false, false, true, [.sBound, .sBound], 0, 0⟩ : Config).strong :=
  ⟨by decide, by decide⟩

/-- C6 witness: copy construction of the `MakeShared` handle increments the
counter 1 → 2, and copy assignment onto a null handle does the same. -/
theorem C6_copy_move_semantics_witness :
    (step (initConfig false) (.copyCon 0) =
      some { initConfig false with
               strong := (initConfig false).strong + 1
               handles := (initConfig false).handles ++ [.sBound] }) ∧
    (step (⟨1, 0, true, false, false, true, [.sNull, .sBound], 0, 0⟩ : Config)
        (.assignCopy 0 1) =
      some { (⟨1, 0, true, false, false, true, [.sNull, .sBound], 0, 0⟩ : Config) with
               strong := (⟨1, 0, true, false, false, true,
                 [.sNull, .sBound], 0, 0⟩ : Config).strong + 1
               handles := [HState.sNull, HState.sBound].set 0 .sBound }) := by
  constructor
  · have hc := C6_copy_move_semantics.1 (initConfig false) 0
      ⟨2, 0, true, false, false, true, [.sBound, .sBound], 0, 0⟩ (by decide) (by decide)
    rw [show step (initConfig false) (.copyCon 0) =
          some (⟨2, 0, true, false, false, true, [.sBound, .sBound], 0, 0⟩ : Config)
        from by decide, hc]
  · have hc := C6_copy_move_semantics.2.2.2.1
      ⟨1, 0, true, false, false, true, [.sNull, .sBound], 0, 0⟩ 0 1
      ⟨2, 0, true, false, false, true, [.sBound, .sBound], 0, 0⟩
      (by decide) (by decide) (by decide) (by decide)
    rw [show step (⟨1, 0, true, false, false, true, [.sNull, .sBound], 0, 0⟩ : Config)
          (.assignCopy 0 1) =
        some (⟨2, 0, true, false, false, true, [.sBound, .sBound], 0, 0⟩ : Config)
        from by decide, hc]

/-- A `UniquePtr`'s data (unique.h line 146): the owned raw pointer
(`pair_.GetFirst()`), as an abstract address (`none` = nullptr).  The default
destruction policy `CustomDeleter` is stateless; deleter invocations are
recorded as the list of pointers passed to `operator()`. -/
structure UPtr where
  ptr : Option Nat
deriving DecidableEq

/-- `UniquePtr::Release` (unique.h lines 95-99): saves the pointer, nulls the
stored one and returns the saved value; the empty third component records
that the destruction policy is NOT invoked. -/
def uRelease (u : UPtr) : Option Nat × UPtr × List (Option Nat) :=
  (u.ptr, ⟨none⟩, [])

/-- `UniquePtr::Reset` (unique.h lines 101-105): saves the old pointer, stores
the new one, then invokes the deleter on the old pointer. -/
def uReset (u : UPtr) (p : Option Nat) : UPtr × List (Option Nat) :=
  (⟨p⟩, [u.ptr])

/-- `UniquePtr` move constructor (unique.h lines 59-61): `pair_` is
default-constructed — `CompressedPair`'s default constructor
value-initialises the pointer member to null (compressed_pair.h lines 49-51)
— and then swapped with the source's pair.  Result: (new handle, source
after the move, deleter invocations = none). -/
def uMoveCon (other : UPtr) : UPtr × UPtr × List (Option Nat) :=
  (⟨other.ptr⟩, ⟨none⟩, [])

/-- `UniquePtr::operator=(UniquePtr&&)` (unique.h lines 66-75) as
`us[i] = std::move(us[j])` on a list of live handles: the `this == &other`
guard makes self-assignment a no-op; otherwise the deleter runs on the
current pointer, the source's pointer is taken and the source is nulled. -/
def uMoveAssign (us : List UPtr) (i j : Nat) : Option (List UPtr × List (Option Nat)) :=
  match us[i]?, us[j]? with
  | some ui, some uj =>
    if i = j then some (us, [])
    else some ((us.set i ⟨uj.ptr⟩).set j ⟨none⟩, [ui.ptr])
  | _, _ => none

/-- `UniquePtr::~UniquePtr` (unique.h lines 86-90): the deleter runs on the
stored pointer only when it is non-null. -/
def uDestroy (u : UPtr) : List (Option Nat) :=
  if u.ptr.isSome then [u.ptr] else []

/-- C7: self-assignment of a `SharedPtr`/`WeakPtr` (copy and move assignment,
the `this != &other` / `this == &other` guards) and of a `UniquePtr` (move
assignment) leaves the whole state unchanged and performs no destruction and
no deleter invocation. -/
theorem C7_self_assignment_noop :
    (∀ c : Config, ∀ i hi, c.handles[i]? = some hi → hi ≠ .dead →
      step c (.assignCopy i i) = some c ∧ step c (.assignMove i i) = some c) ∧
    (∀ us : List UPtr, ∀ i u, us[i]? = some u → uMoveAssign us i i = some (us, [])) := by
  constructor
  · intro c i hi hg hnd
    constructor <;>
      (simp only [step]
       rw [hg]
       simp [hnd])
  · intro us i u hg
    simp [uMoveAssign, hg]

/-- C7 witness: self-assignment on the `MakeShared` configuration and on a
one-element `UniquePtr` list. -/
theorem C7_self_assignment_noop_witness :
    (step (initConfig false) (.assignCopy 0 0) = some (initConfig false) ∧
     step (initConfig false) (.assignMove 0 0) = some (initConfig false)) ∧
    uMoveAssign [⟨some 7⟩] 0 0 = some ([⟨some 7⟩], []) :=
  ⟨C7_self_assignment_noop.1 (initConfig false) 0 .sBound (by decide) (by decide),
   C7_self_assignment_noop.2 [⟨some 7⟩] 0 ⟨some 7⟩ (by decide)⟩

/-- C9: `Release()` returns the owned pointer and nulls the handle without
invoking the destruction policy; `Reset(q)` invokes the policy on the
previously owned object and adopts `q`; move-constructing OR move-assigning
`u` into another `UniquePtr` leaves the source null and the destination
owning `p` (move assignment first runs the deleter on the destination's own
previous pointer — a null one for a fresh destination); destroying the
moved-from source invokes no policy and destroying the destination invokes
it on `p` exactly once — each complete scenario performs exactly one deleter
call on `p`. -/
theorem C9_unique_release_reset_move (p q : Nat) :
    uRelease ⟨some p⟩ = (some p, ⟨none⟩, []) ∧
    uReset ⟨some p⟩ (some q) = (⟨some q⟩, [some p]) ∧
    uMoveCon ⟨some p⟩ = (⟨some p⟩, ⟨none⟩, []) ∧
    uDestroy ⟨none⟩ = [] ∧
    uDestroy ⟨some p⟩ = [some p] ∧
    ((uMoveCon ⟨some p⟩).2.2 ++ uDestroy (uMoveCon ⟨some p⟩).2.1 ++
        uDestroy (uMoveCon ⟨some p⟩).1 = [some p]) ∧
    (∀ us : List UPtr, ∀ i j ui uj, i ≠ j → us[i]? = some ui → us[j]? = some uj →
       uMoveAssign us i j = some ((us.set i ⟨uj.ptr⟩).set j ⟨none⟩, [ui.ptr])) ∧
    (uMoveAssign [⟨some p⟩, ⟨none⟩] 1 0 = some ([⟨none⟩, ⟨some p⟩], [none])) ∧
    ([(none : Option Nat)] ++ uDestroy (⟨none⟩ : UPtr) ++
        uDestroy ⟨some p⟩).count (some p) = 1 := by
  refine ⟨rfl, rfl, rfl, rfl, rfl, rfl, ?_, rfl, ?_⟩
  · intro us i j ui uj hij hgi hgj
    simp only [uMoveAssign, hgi, hgj]
    rw [if_neg hij]
  · simp [uDestroy]

/-- C9 witness: move assignment of a `UniquePtr` owning pointer 3 into a
default-constructed destination — source nulled, destination owns 3, deleter
run only on the destination's previous (null) pointer. -/
theorem C9_unique_release_reset_move_witness :
    uMoveAssign [⟨some 3⟩, ⟨none⟩] 1 0 = some ([⟨none⟩, ⟨some 3⟩], [none]) := by
  have h := (C9_unique_release_reset_move 3 0).2.2.2.2.2.2.1 [⟨some 3⟩, ⟨none⟩] 1 0
    ⟨none⟩ ⟨some 3⟩ (by decide) (by decide) (by decide)
  rw [h]
  rfl

/-- The observable identity content of a `SharedPtr<X>`: the observed raw
pointer `ptr_` and the control-block pointer `block_`, as abstract addresses
(`none` = nullptr). -/
structure SPtrRep where
  ptr : Option Nat
  block : Option Nat
deriving DecidableEq

/-- `operator==(const SharedPtr<X>&, const SharedPtr<U>&)` (shared.h lines
325-328): `left.Get() == right.Get() && left.GetBlock() == right.GetBlock()`. -/
def spEq (l r : SPtrRep) : Bool := l.ptr == r.ptr && l.block == r.block

/-- C8: two SharedPtrs compare equal iff both the observed pointer and the
control-block pointer are identical; hence equal `Get()` with different
blocks (aliasing handles of different parents) compares unequal, and the same
block with different observed pointers compares unequal. -/
theorem C8_equality_pointer_and_block :
    (∀ l r : SPtrRep, spEq l r = true ↔ (l.ptr = r.ptr ∧ l.block = r.block)) ∧
    (∀ l r : SPtrRep, l.ptr = r.ptr → l.block ≠ r.block → spEq l r = false) ∧
    (∀ l r : SPtrRep, l.block = r.block → l.ptr ≠ r.ptr → spEq l r = false) := by
  refine ⟨?_, ?_, ?_⟩
  · intro l r
    simp [spEq]
  · intro l r hp hb
    simp [spEq, hp, hb]
  · intro l r hb hp
    simp [spEq, hp, hb]

/-- C8 witness: two aliasing handles over different parents with equal
`Get()` compare unequal; equal pointer and block compare equal. -/
theorem C8_equality_witness :
    spEq ⟨some 5, some 1⟩ ⟨some 5, some 2⟩ = false ∧
    (spEq ⟨some 5, some 1⟩ ⟨some 5, some 1⟩ = true ↔
      ((some 5 : Option Nat) = some 5 ∧ (some 1 : Option Nat) = some 1)) :=
  ⟨C8_equality_pointer_and_block.2.1 ⟨some 5, some 1⟩ ⟨some 5, some 2⟩ rfl (by decide),
   C8_equality_pointer_and_block.1 ⟨some 5, some 1⟩ ⟨some 5, some 1⟩⟩

/-- Outcome of the promoting constructor `SharedPtr(const WeakPtr<X>&)`
(shared.h lines 191-197).  Its condition is
`block_->GetStrongCounter() == 0 || !block_`: `||` evaluates the left operand
first, and that operand dereferences `block_`, so when `block_` is null the
constructor performs a null-pointer dereference (undefined behaviour) before
the `!block_` test can ever fire. -/
inductive PromoteOutcome where
  | ok (strongAfter : Int)   -- else-branch: `block_->IncreaseStrongCounter()`
  | badWeakPtr               -- `throw BadWeakPtr()`
  | nullDeref                -- `block_->GetStrongCounter()` with `block_ == nullptr`
deriving DecidableEq

/-- The promoting constructor on a `WeakPtr` whose `block_` is non-null iff
`blockBound`, with current strong counter `strong` — translated with the C++
evaluation order: the dereference happens first. -/
def promoteFromWeak (blockBound : Bool) (strong : Int) : PromoteOutcome :=
  if !blockBound then .nullDeref
  else if strong = 0 then .badWeakPtr
  else .ok (strong + 1)

/-- C3: evaluation of the direct promotion path.  At the failing input — an
entirely unbound `WeakPtr` (`block_ == nullptr`) — the code dereferences the
null block pointer instead of throwing `BadWeakPtr` (the `|| !block_` test is
dead: it sits to the right of the dereferencing operand).  On a bound
`WeakPtr` the claim's behaviour holds: strong count 0 throws `BadWeakPtr`
leaving the trace state (all counters, all handles) unchanged, and strong
count > 0 succeeds, appending a bound `SharedPtr` and incrementing the strong
count by exactly one. -/
theorem C3_promote_eval :
    promoteFromWeak false 0 = .nullDeref ∧
    (PromoteOutcome.nullDeref ≠ PromoteOutcome.badWeakPtr) ∧
    (∀ s : Int, promoteFromWeak true s = if s = 0 then .badWeakPtr else .ok (s + 1)) ∧
    (∀ c : Config, ∀ i, c.handles[i]? = some .wNull → step c (.promote i) = none) ∧
    (∀ c : Config, ∀ i, c.handles[i]? = some .wBound → c.strong = 0 →
       step c (.promote i) = some c) ∧
    (∀ c : Config, ∀ i b, c.handles[i]? = some .wBound → c.strong ≠ 0 →
       step c (.promote i) = some b →
       b = { c with strong := c.strong + 1, handles := c.handles ++ [.sBound] }) := by
  refine ⟨rfl, by decide, ?_, ?_, ?_, ?_⟩
  · intro s
    simp [promoteFromWeak]
  · intro c i hg
    simp only [step]
    rw [hg]
  · intro c i hg hs0
    simp only [step]
    rw [hg, if_pos hs0]
  · intro c i b hg hs0 hstep
    simp only [step] at hstep
    rw [hg, if_neg hs0] at hstep
    simp only [Option.some.injEq] at hstep
    exact hstep.symm

/-- C3 witness for the bound cases of `C3_promote_eval`, at strong count 0
(throws, state unchanged) and strong count 2 (succeeds, increments). -/
theorem C3_promote_eval_witness :
    promoteFromWeak true 0 = .badWeakPtr ∧
    promoteFromWeak true 2 = .ok 3 ∧
    step ⟨0, 1, false, false, false, true, [.wBound], 1, 0⟩ (.promote 0) =
      some ⟨0, 1, false, false, false, true, [.wBound], 1, 0⟩ ∧
    step ⟨1, 1, true, false, false, true, [.sBound, .wBound], 0, 0⟩ (.promote 1) =
      some ⟨2, 1, true, false, false, true, [.sBound, .wBound, .sBound], 0, 0⟩ := by
  refine ⟨by rw [(C3_promote_eval.2.2.1 0 : _)]; rfl,
    by rw [(C3_promote_eval.2.2.1 2 : _)]; rfl,
    C3_promote_eval.2.2.2.2.1 _ 0 (by decide) (by decide), ?_⟩
  have hb := C3_promote_eval.2.2.2.2.2
    ⟨1, 1, true, false, false, true, [.sBound, .wBound], 0, 0⟩ 1
    ⟨2, 1, true, false, false, true, [.sBound, .wBound, .sBound], 0, 0⟩
    (by decide) (by decide) (by decide)
  rw [show step (⟨1, 1, true, false, false, true, [.sBound, .wBound], 0, 0⟩ : Config)
        (.promote 1) =
      some (⟨2, 1, true, false, false, true, [.sBound, .wBound, .sBound], 0, 0⟩ : Config)
      from by decide]

/-- The destructor `~EnableSharedFromThis` (shared.h lines 106-110) on the
member `weak_this_`'s state: `GetRealBlock()` returns the `block_` field and
`DecreaseWeakCounter()` is called on it unconditionally — with a null
`block_` (the self-reference was never wired) this is a null-pointer
dereference (`none`); on a wired mixin it decrements the block's weak count
once and then nulls the member's block and pointer fields, so the member
`WeakPtr`'s own destructor later performs no further decrement. -/
def enableSftDtor (c : Config) (blockBound : Bool) : Option Config :=
  if blockBound then some { c with weak := c.weak - 1 } else none

/-- The wiring condition of the converting raw-pointer constructor
`template <typename Y> SharedPtr<X>::SharedPtr(Y*)` (shared.h lines 137-142):
`if constexpr (std::is_convertible_v<X*, EnableSharedFromThisBase*>)` — it
tests the handle's type parameter `X`, not the pointee type `Y`. -/
def rawCtorWires (xDerivesMixinBase yDerivesMixinBase : Bool) : Bool :=
  xDerivesMixinBase

/-- C10: destroying a mixin-embedding object whose self-reference was never
wired dereferences a null block pointer; safe destruction requires the wired
precondition.  The converting raw-pointer constructor's wiring test depends
only on `X`, so a mixin-embedding pointee `Y` owned through `SharedPtr<X>` of
a non-mixin `X` stays unwired (`rawCtorWires false true = false`) and its
destruction is exactly that null dereference. -/
theorem C10_unwired_mixin_destructor_null_deref :
    (∀ c : Config, enableSftDtor c false = none) ∧
    (∀ c : Config, enableSftDtor c true = some { c with weak := c.weak - 1 }) ∧
    (∀ x y : Bool, rawCtorWires x y = x) ∧
    rawCtorWires false true = false ∧
    enableSftDtor ⟨1, 0, true, false, true, true, [.sBound], 0, 0⟩
      (rawCtorWires false true) = none :=
  ⟨fun _ => rfl, fun _ => rfl, fun _ _ => rfl, rfl, rfl⟩
